import Mathlib

/-!
Shallow embedding of the DataCleanAI analysis and cleaning engines
(`backend/app/ml/data_analyzer.py` and `backend/app/ml/data_cleaner.py`).

Machine floats are modelled by exact rationals.  The pandas / numpy
primitives the two modules call (`Series.quantile`, `median`, `clip`,
`isnull`, `SimpleImputer`) are embedded by their documented algorithms;
where IEEE-754 semantics is essential (division by a zero MAD) the IEEE
outcome of the comparison is spelled out explicitly in the definition.
Null cells are `Option.none`; a table is a list of named columns.
-/

namespace DataCleanAI

/-- Ascending sorted copy of a list of rationals, as pandas sorts the values
of a series before computing order statistics. -/
def sortQ (xs : List ℚ) : List ℚ := List.insertionSort (· ≤ ·) xs

/-- `Series.quantile(q)` with the default linear interpolation:
with `s` the sorted values and `h = q·(n-1)`, the result is
`s[⌊h⌋] + (h - ⌊h⌋) · (s[⌊h⌋+1] - s[⌊h⌋])`.  The empty series yields `0`
(pandas yields NaN there; every caller in the source skips empty columns
before calling `quantile`). -/
def quantileQ (xs : List ℚ) (q : ℚ) : ℚ :=
  let s := sortQ xs
  if s.length = 0 then 0
  else
    let h : ℚ := q * ((s.length : ℚ) - 1)
    let k : ℕ := (⌊h⌋).toNat
    let f : ℚ := h - (⌊h⌋ : ℚ)
    s.getD k 0 + f * (s.getD (k + 1) (s.getD k 0) - s.getD k 0)

/-- `Series.median` / `np.median`: middle element of the sorted values, or
the mean of the two middle elements when the count is even (`0` on an empty
list, unreached by the callers). -/
def medianQ (xs : List ℚ) : ℚ :=
  let s := sortQ xs
  let n := s.length
  if n = 0 then 0
  else if n % 2 = 1 then s.getD (n / 2) 0
  else (s.getD (n / 2 - 1) 0 + s.getD (n / 2) 0) / 2

/-- `np.median(np.abs(col_data - median))`: the median absolute deviation
used by `_statistical_outlier_detection`. -/
def madQ (xs : List ℚ) : ℚ := medianQ (xs.map (fun x => |x - medianQ xs|))

/-- The comparison `np.abs(a / b) > t` as numpy evaluates it over IEEE
doubles, division by zero included: when `b = 0`, `a / 0` is `±∞` for
`a ≠ 0` (so the comparison holds) and NaN for `a = 0` (every ordered
comparison with NaN is false). -/
def absDivGT (a b t : ℚ) : Bool :=
  if b = 0 then decide (a ≠ 0) else decide (t < |a / b|)

/-- Whether one value `v` of the column `xs` is flagged by the modified
Z-score detector of `_statistical_outlier_detection`:
`modified_z_scores = 0.6745 * (col_data - median) / mad`, flagged when
`np.abs(modified_z_scores) > 3.5`. -/
def modifiedZscoreFlagged (xs : List ℚ) (v : ℚ) : Bool :=
  absDivGT (6745 / 10000 * (v - medianQ xs)) (madQ xs) (35 / 10)

/-- `_calculate_quality_score` of `DataQualityAnalyzer`: start from 100,
subtract `missing_pct * 2`, `duplicate_pct * 1.5` and `outlier_pct * 0.5`
where `outlier_pct = total_outliers / total_rows * 100` (0 when the table
has no rows), then clamp with `max(0.0, min(100.0, score))`. -/
def calculate_quality_score (missingPct duplicatePct : ℚ)
    (totalOutliers totalRows : ℕ) : ℚ :=
  let score₁ := 100 - missingPct * 2
  let score₂ := score₁ - duplicatePct * (3 / 2)
  let outlierPct : ℚ :=
    if 0 < totalRows then ((totalOutliers : ℚ) / (totalRows : ℚ)) * 100 else 0
  let score₃ := score₂ - outlierPct * (1 / 2)
  max 0 (min 100 score₃)

/-- A column as the analyzers see it: optionally-null numeric cells. -/
abbrev Column := List (Option ℚ)

/-- A table: ordered, named columns (each of the table's row count in
length). -/
abbrev Table := List (String × Column)

/-- `df[col].isnull().sum()` for one column. -/
def nullCount (c : Column) : ℕ := (c.filter Option.isNone).length

/-- `df.shape[0]`: the row count, read off the first column. -/
def nRows (t : Table) : ℕ := ((t.head?).map (fun c => c.2.length)).getD 0

/-- `df.isnull().sum().sum()`: all null cells of the table. -/
def totalMissing (t : Table) : ℕ := (t.map (fun c => nullCount c.2)).sum

/-- `df.size`: row count times column count. -/
def tableSize (t : Table) : ℕ := t.length * nRows t

/-- `_analyze_missing_data`'s overall missing percentage:
`(total_missing / total_cells) * 100`. -/
def missing_percentage (t : Table) : ℚ :=
  ((totalMissing t : ℚ) / (tableSize t : ℚ)) * 100

/-- The `outlier_indices` entry `_statistical_outlier_detection` records for
one column: the flagged row indices of the three statistical methods. -/
structure StatColResult where
  iqr : List ℕ
  zscore : List ℕ
  modifiedZscore : List ℕ

/-- All indices of one column's statistical entry (the inner
`for method, indices in results["outlier_indices"].items()` loop of
`_combine_outlier_results` unions the three methods' lists). -/
def statIndices (r : StatColResult) : Finset ℕ :=
  r.iqr.toFinset ∪ r.zscore.toFinset ∪ r.modifiedZscore.toFinset

/-- The indices one ML entry of `_ml_outlier_detection` contributes to the
combination: its `outlier_indices` list, or nothing when the entry holds an
error (or message) instead of indices. -/
def mlIndices (o : Option (List ℕ)) : Finset ℕ := (o.map List.toFinset).getD ∅

/-- `_combine_outlier_results`: a Python set accumulates
`update(indices)` over every statistical method of every column, then over
every ML method that produced indices. -/
def combine_outlier_results (statistical : List StatColResult)
    (mlBased : List (Option (List ℕ))) : Finset ℕ :=
  let afterStat := statistical.foldl (fun acc r => acc ∪ statIndices r) ∅
  mlBased.foldl (fun acc o => acc ∪ mlIndices o) afterStat

/-- `combined["total_outliers"] = len(all_outlier_indices)`. -/
def total_outliers (statistical : List StatColResult)
    (mlBased : List (Option (List ℕ))) : ℕ :=
  (combine_outlier_results statistical mlBased).card

/-- Lower IQR fence `Q1 - 1.5*IQR` of the capping pass of
`_handle_outliers`, over a column's non-null values. -/
def iqrLower (xs : List ℚ) : ℚ :=
  quantileQ xs (1 / 4) - (3 / 2) * (quantileQ xs (3 / 4) - quantileQ xs (1 / 4))

/-- Upper IQR fence `Q3 + 1.5*IQR` of the capping pass of
`_handle_outliers`. -/
def iqrUpper (xs : List ℚ) : ℚ :=
  quantileQ xs (3 / 4) + (3 / 2) * (quantileQ xs (3 / 4) - quantileQ xs (1 / 4))

/-- The second phase of `_handle_outliers` on one numeric column: when
`col_data = df[col].dropna()` is empty the column is skipped (`continue`);
otherwise the IQR bounds are computed on `col_data` and every value
satisfying the mask `(df[col] < lower) | (df[col] > upper)` is replaced by
`clip(lower=lower_bound, upper=upper_bound)` of itself; null cells never
satisfy the mask and stay null. -/
def capColumn (c : Column) : Column :=
  let colData := c.filterMap id
  if colData.length = 0 then c
  else
    let lo := iqrLower colData
    let hi := iqrUpper colData
    c.map (fun v? => v?.map (fun v => if v < lo ∨ hi < v then min hi (max lo v) else v))

/-- A table together with its pandas row-index labels, as `_handle_outliers`
sees it (`df.drop(index=...)` removes rows by label).  All columns are
numeric (the second phase of `_handle_outliers` only touches
`select_dtypes(include=[np.number])` columns; non-numeric columns pass
through unchanged and are not modelled). -/
structure NTable where
  index : List ℕ
  cols : List (String × Column)

/-- `df.drop(index=outlier_indices)`: remove every row whose label is
listed. -/
def dropRows (t : NTable) (idxs : List ℕ) : NTable :=
  { index := t.index.filter (fun i => decide (i ∉ idxs))
    cols := t.cols.map (fun c =>
      (c.1, (t.index.zip c.2).filterMap
        (fun p => if p.1 ∈ idxs then none else some p.2))) }

/-- `_handle_outliers` of `AutoDataCleaner`.  `analysis` is `none` when
`analysis_results` is falsy or lacks the `"outliers"` key — the guard
`if not analysis_results or "outliers" not in analysis_results: return df`
then returns the frame unchanged.  Otherwise it carries
`combined.all_outlier_indices` when the `"combined"` key is present.
Phase 1 drops the listed rows (skipped when the list is empty, which is
falsy in Python); phase 2 recomputes IQR bounds per column on the remaining
data and caps (`capColumn`). -/
def handle_outliers (t : NTable) (analysis : Option (Option (List ℕ))) : NTable :=
  match analysis with
  | none => t
  | some combined =>
    let t₁ := match combined with
      | some idxs => if idxs.isEmpty then t else dropRows t idxs
      | none => t
    { t₁ with cols := t₁.cols.map (fun c => (c.1, capColumn c.2)) }

/-- One cell of an untyped column as `_suggest_dtype` observes it, the
library coercions abstracted as oracles: `toNumeric` is
`pd.to_numeric(value, errors='coerce')` (`none` = NaN: the value is null or
does not convert); `parsesDatetime` says whether `pd.to_datetime` accepts
the value (a null parses, to NaT); `key` is the value's identity, used by
`nunique` (which counts distinct non-null values). -/
structure Cell where
  isNull : Bool
  toNumeric : Option ℚ
  parsesDatetime : Bool
  key : ℕ

/-- `numeric_series.notna().sum() / len(series)` of `_suggest_dtype`: the
fraction of all values (nulls included in the denominator) that convert
cleanly to a number. -/
def numericFrac (s : List Cell) : ℚ :=
  ((s.filter (fun c => c.toNumeric.isSome)).length : ℚ) / (s.length : ℚ)

/-- `series.nunique() / len(series)` of `_suggest_dtype`: distinct non-null
values over the total length. -/
def uniqueRatio (s : List Cell) : ℚ :=
  (((s.filter (fun c => !c.isNull)).map (fun c => c.key)).dedup.length : ℚ) /
    (s.length : ℚ)

/-- `_suggest_dtype` of `DataQualityAnalyzer`: `"numeric"` when the numeric
fraction exceeds 0.8 strictly; else `"datetime"` when `pd.to_datetime`
accepts the whole series (every value parses); else `"categorical"` when
the unique ratio is below 0.5; else `"object"`. -/
def suggest_dtype (s : List Cell) : String :=
  if 4 / 5 < numericFrac s then "numeric"
  else if s.all (fun c => c.parsesDatetime) then "datetime"
  else if uniqueRatio s < 1 / 2 then "categorical"
  else "object"

/-- `_select_imputation_method` of `AutoDataCleaner`: by missing percentage
and dtype — over 50% missing drops the column; numeric columns get mean
below 5%, median below 20%, else KNN; other columns get mode below 10%,
else a constant placeholder. -/
def select_imputation_method (missingPct : ℚ) (isNumericDtype : Bool) : String :=
  if 50 < missingPct then "drop_column"
  else if isNumericDtype then
    if missingPct < 5 then "mean"
    else if missingPct < 20 then "median"
    else "knn"
  else
    if missingPct < 10 then "mode"
    else "constant"

/-- §4.8's selection policy as the spec words it, for comparison with
`select_imputation_method`: missing% > 50 → drop the column; else if
numeric → mean under 5%, median under 20%, else KNN; else mode under 10%,
else a fixed placeholder. -/
def specImputationPolicy (missingPct : ℚ) (isNumericDtype : Bool) : String :=
  if missingPct > 50 then "drop_column"
  else if isNumericDtype then
    if missingPct < 5 then "mean"
    else if missingPct < 20 then "median"
    else "knn"
  else
    if missingPct < 10 then "mode"
    else "constant"

/-- Mean of a column's non-null values (`SimpleImputer(strategy='mean')`
fits the mean of the observed values). -/
def colMean (c : Column) : ℚ :=
  let obs := c.filterMap id
  obs.sum / (obs.length : ℚ)

/-- `SimpleImputer(strategy='mean').fit_transform(df[[col]])`: every null
cell becomes the column's non-null mean, observed values are unchanged. -/
def meanImpute (c : Column) : Column :=
  c.map (fun v? => some (v?.getD (colMean c)))

/-- `SimpleImputer(strategy='median')`: every null cell becomes the median
of the observed values. -/
def medianImpute (c : Column) : Column :=
  c.map (fun v? => some (v?.getD (medianQ (c.filterMap id))))

/-- Most frequent observed value (`SimpleImputer(strategy='most_frequent')`;
ties resolved to the smallest value, as sklearn documents).  The scan runs
over the ascending sorted values, so the first count maximum is the
smallest. -/
def colMode (c : Column) : ℚ :=
  let obs := sortQ (c.filterMap id)
  ((obs.foldl (fun best v =>
      let cnt := (obs.filter (fun x => decide (x = v))).length
      match best with
      | none => some (v, cnt)
      | some (bv, bc) => if bc < cnt then some (v, cnt) else some (bv, bc))
    none).map Prod.fst).getD 0

/-- `SimpleImputer(strategy='most_frequent')` applied to one column. -/
def modeImpute (c : Column) : Column :=
  c.map (fun v? => some (v?.getD (colMode c)))

/-- `fillna(method='ffill')` on a numeric column: each null takes the last
observed value before it, if any. -/
def ffillQ (c : Column) : Column :=
  (c.foldl (fun (st : Column × Option ℚ) v? =>
    match v? with
    | some v => (st.1 ++ [some v], some v)
    | none => (st.1 ++ [st.2], st.2)) ([], none)).1

/-- `fillna(method='bfill')`: forward fill of the reversed column. -/
def bfillQ (c : Column) : Column := (ffillQ c.reverse).reverse

/-- `df.drop(columns=[col], inplace=True)`. -/
def dropColumn (cols : Table) (col : String) : Table :=
  cols.filter (fun c => decide (c.1 ≠ col))

/-- `df[col]` (the empty column when the name is absent). -/
def getColumn (cols : Table) (col : String) : Column :=
  ((cols.find? (fun c => c.1 = col)).map Prod.snd).getD []

/-- `df[col] = values`: replace the column in place when present, else
append it at the end (pandas appends a new column last). -/
def setColumn (cols : Table) (col : String) (vals : Column) : Table :=
  if cols.any (fun c => c.1 = col) then
    cols.map (fun c => if c.1 = col then (col, vals) else c)
  else cols ++ [(col, vals)]

/-- A table as the cleaning stages mutate it: the pandas row index is fixed
for the whole `_handle_missing_data` stage, so its length (`rowCount`) is
carried beside the columns (a frame keeps its index even with every column
dropped, and a series assigned into it is aligned to that index). -/
structure MTable where
  rowCount : ℕ
  cols : Table

/-- `_apply_imputation` of `AutoDataCleaner`, over a table whose columns are
all numeric (`pd.api.types.is_numeric_dtype` holds for every column, so the
`'object'`-dtype placeholder `"Unknown"` of the `constant` branch is never
chosen — the numeric placeholder is `-999`).  The sklearn `KNNImputer` fit
of the `knn` branch — reached only when other numeric feature columns
exist — is abstracted as the oracle `knnFn`, returning the imputed target
column, which the branch stores into the frame and returns.  The returned
pair is (the frame as the call leaves it, the series/array the call
returns); `none` stands for the empty `pd.Series()` the `drop_column`
branch returns after its in-place drop. -/
def apply_imputation (knnFn : Table → String → Column) (cols : Table)
    (col : String) (method : String) : Table × Option Column :=
  if method = "drop_column" then
    (dropColumn cols col, none)
  else if method = "mean" then
    (cols, some (meanImpute (getColumn cols col)))
  else if method = "median" then
    (cols, some (medianImpute (getColumn cols col)))
  else if method = "mode" then
    (cols, some (modeImpute (getColumn cols col)))
  else if method = "knn" then
    if cols.any (fun c => c.1 = col) && 1 < cols.length then
      let imputed := knnFn cols col
      (setColumn cols col imputed, some imputed)
    else
      (cols, some (medianImpute (getColumn cols col)))
  else if method = "constant" then
    let filled := (getColumn cols col).map (fun v? => some (v?.getD (-999)))
    (setColumn cols col filled, some filled)
  else
    let filled := bfillQ (ffillQ (getColumn cols col))
    (setColumn cols col filled, some filled)

/-- `_handle_missing_data` of `AutoDataCleaner` on an all-numeric table,
with no analysis provided (the per-column missing percentages are computed
once up front by `_analyze_missing_data`: `column_missing / len(df) * 100`).
The loop walks the frame's columns as they were at entry, re-counts each
column's nulls live, selects a method, calls `_apply_imputation` and then
assigns `df[col] = result`.  A positional array assigns as given; the empty
series of the `drop_column` branch aligns to the frame's index as an
all-null column (this re-adds the just-dropped column). -/
def handle_missing_data (knnFn : Table → String → Column) (t : MTable) : MTable :=
  let colPct : String → ℚ :=
    fun col => ((nullCount (getColumn t.cols col) : ℚ) / (t.rowCount : ℚ)) * 100
  { rowCount := t.rowCount
    cols := (t.cols.map Prod.fst).foldl (fun df col =>
      let missingCount := nullCount (getColumn df col)
      if 0 < missingCount then
        let method := select_imputation_method (colPct col) true
        let step := apply_imputation knnFn df col method
        setColumn step.1 col
          (match step.2 with
           | none => List.replicate t.rowCount none
           | some vals => vals)
      else df) t.cols }

/-- The Python object heap of one `clean_dataset` call: slot `i` holds the
frame object with id `i`. -/
abbrev Heap := List MTable

/-- `clean_dataset` of `AutoDataCleaner` as it acts on the object heap:
`cleaned_df = df.copy()` allocates a fresh object (id `heap.length`)
holding a deep copy of the data, and each of the six cleaning steps reads,
mutates and rebinds only the copy's slot.  The six stage bodies are
abstracted as `steps`; the result is the final heap and the id of the
returned object. -/
def clean_dataset (steps : List (MTable → MTable)) (heap : Heap) (dfId : ℕ) :
    Heap × ℕ :=
  let copyId := heap.length
  let heap₁ := heap ++ [heap.getD dfId ⟨0, []⟩]
  let heap₂ := steps.foldl
    (fun h step => h.set copyId (step (h.getD copyId ⟨0, []⟩))) heap₁
  (heap₂, copyId)

/-- The series of the boundary example for `_suggest_dtype`: five non-null
values, of which exactly four convert cleanly to a number and none parses
as a date, all distinct. -/
def c4cells : List Cell :=
  [⟨false, some 1, false, 0⟩, ⟨false, some 2, false, 1⟩,
   ⟨false, some 3, false, 2⟩, ⟨false, some 4, false, 3⟩,
   ⟨false, none, false, 4⟩]

/-! ## Theorems -/

/-- Evaluation rule for `quantileQ` at a concrete sorted list, floor value
and fractional part. -/
theorem quantileQ_eval (xs srt : List ℚ) (q : ℚ) (k : ℕ) (f : ℚ)
    (hs : sortQ xs = srt) (hne : srt.length ≠ 0)
    (hk : ⌊q * ((srt.length : ℚ) - 1)⌋ = (k : ℤ))
    (hf : q * ((srt.length : ℚ) - 1) - (k : ℚ) = f) :
    quantileQ xs q
      = srt.getD k 0 + f * (srt.getD (k + 1) (srt.getD k 0) - srt.getD k 0) := by
  unfold quantileQ
  rw [hs, if_neg hne]
  simp only [hk, Int.toNat_natCast, Int.cast_natCast]
  rw [hf]

/-- Reading a slot other than the written one through `List.set` is
unchanged. -/
theorem getD_set_ne {α : Type} (l : List α) (i j : ℕ) (x d : α) (h : i ≠ j) :
    (l.set i x).getD j d = l.getD j d := by
  induction l generalizing i j with
  | nil => simp
  | cons a as ih =>
    cases i with
    | zero =>
      cases j with
      | zero => exact absurd rfl h
      | succ j' => simp [List.getD]
    | succ i' =>
      cases j with
      | zero => simp [List.getD]
      | succ j' =>
        simpa [List.getD] using ih i' j' (fun he => h (by rw [he]))

/-- Reading inside the original part of an appended list. -/
theorem getD_append_left {α : Type} (l l' : List α) (j : ℕ) (d : α)
    (h : j < l.length) : (l ++ l').getD j d = l.getD j d := by
  induction l generalizing j with
  | nil => simp at h
  | cons a as ih =>
    cases j with
    | zero => simp [List.getD]
    | succ j' => simpa [List.getD] using ih j' (by simpa using h)

/-- Membership in a left fold of unions. -/
theorem mem_foldl_union {α : Type} (f : α → Finset ℕ) (l : List α)
    (acc : Finset ℕ) (n : ℕ) :
    n ∈ l.foldl (fun a x => a ∪ f x) acc ↔ n ∈ acc ∨ ∃ x ∈ l, n ∈ f x := by
  induction l generalizing acc with
  | nil => simp
  | cons y ys ih =>
    simp only [List.foldl_cons, ih, Finset.mem_union, List.mem_cons]
    constructor
    · rintro (⟨hn | hn⟩ | ⟨x, hx, hn⟩)
      · exact Or.inl hn
      · exact Or.inr ⟨y, Or.inl rfl, hn⟩
      · exact Or.inr ⟨x, Or.inr hx, hn⟩
    · rintro (hn | ⟨x, rfl | hx, hn⟩)
      · exact Or.inl (Or.inl hn)
      · exact Or.inl (Or.inr hn)
      · exact Or.inr ⟨x, hx, hn⟩

/-- C1.  The quality score of `_calculate_quality_score` equals
`100 − 2·missing% − 1.5·duplicate% − 0.5·(outliers/rows·100)` clamped to
`[0, 100]` (whenever the table has rows), and it lies in `[0, 100]` for
every combination of inputs, the degenerate row count 0 included. -/
theorem calculate_quality_score_spec (m d : ℚ) (o r : ℕ) :
    (0 < r → calculate_quality_score m d o r
        = max 0 (min 100
            (100 - 2 * m - (3 / 2) * d - (1 / 2) * ((o : ℚ) / (r : ℚ) * 100))))
    ∧ 0 ≤ calculate_quality_score m d o r
    ∧ calculate_quality_score m d o r ≤ 100 := by
  refine ⟨fun hr => ?_, ?_, ?_⟩
  · simp only [calculate_quality_score, if_pos hr]
    congr 2
    ring
  · exact le_max_left 0 _
  · exact max_le (by norm_num) (min_le_left _ _)

/-- Witness for C1 at a concrete input. -/
theorem calculate_quality_score_spec_witness :
    ((0 : ℕ) < 4 → calculate_quality_score 3 2 1 4
        = max 0 (min 100
            (100 - 2 * 3 - (3 / 2) * 2 - (1 / 2) * (((1 : ℕ) : ℚ) / ((4 : ℕ) : ℚ) * 100))))
    ∧ 0 ≤ calculate_quality_score 3 2 1 4
    ∧ calculate_quality_score 3 2 1 4 ≤ 100 :=
  calculate_quality_score_spec 3 2 1 4

/-- C2 (amended).  When `_handle_outliers` is invoked without analysis
results (or without an `"outliers"` entry), it returns the table unchanged:
neither the row-removal phase nor the IQR-capping phase runs. -/
theorem handle_outliers_no_analysis (t : NTable) :
    handle_outliers t none = t := rfl

/-- C2 (counterexample).  On a concrete table whose single column the
IQR-capping phase would change (it caps 100 down to the fence 0), calling
the outlier treater without an analysis report leaves the table untouched —
so the claim that the second phase still runs is false at this input. -/
theorem handle_outliers_no_analysis_cex :
    handle_outliers ⟨[0, 1, 2, 3, 4],
        [("a", [some 0, some 0, some 0, some 0, some 100])]⟩ none
      = ⟨[0, 1, 2, 3, 4], [("a", [some 0, some 0, some 0, some 0, some 100])]⟩
    ∧ capColumn [some 0, some 0, some 0, some 0, some 100]
      ≠ [some 0, some 0, some 0, some 0, some 100] := by
  constructor
  · rfl
  · have hq1 : quantileQ [(0 : ℚ), 0, 0, 0, 100] (1 / 4) = 0 := by
      rw [quantileQ_eval _ [0, 0, 0, 0, 100] _ 1 0 (by decide) (by decide)
        (by norm_num [Int.floor_eq_iff]) (by norm_num)]
      norm_num [List.getD]
    have hq3 : quantileQ [(0 : ℚ), 0, 0, 0, 100] (3 / 4) = 0 := by
      rw [quantileQ_eval _ [0, 0, 0, 0, 100] _ 3 0 (by decide) (by decide)
        (by norm_num [Int.floor_eq_iff]) (by norm_num)]
      norm_num [List.getD]
    have hcap : capColumn [some 0, some 0, some 0, some 0, some 100]
        = [some 0, some 0, some 0, some 0, some 0] := by
      simp only [capColumn, iqrLower, iqrUpper, List.filterMap_cons,
        List.filterMap_nil, id_eq, hq1, hq3]
      norm_num [min_def, max_def]
    rw [hcap]
    simp only [ne_eq, List.cons.injEq, Option.some.injEq]
    norm_num

/-- C7.  When a column's MAD is zero, the modified Z-score detector (whose
division is total in the IEEE sense embedded in `absDivGT`) flags exactly
the values that differ from the column median. -/
theorem modified_zscore_zero_mad (xs : List ℚ) (v : ℚ) (h : madQ xs = 0) :
    modifiedZscoreFlagged xs v = true ↔ v ≠ medianQ xs := by
  unfold modifiedZscoreFlagged absDivGT
  rw [if_pos h]
  simp only [decide_eq_true_eq]
  constructor
  · intro hne he
    exact hne (by rw [he]; ring)
  · intro hne h0
    rcases mul_eq_zero.1 h0 with h1 | h1
    · norm_num at h1
    · exact hne (by linarith [sub_eq_zero.1 h1])

/-- Witness for C7: the column `[1, 1, 1, 2]` has MAD 0, and the value 2 is
flagged because it differs from the median 1. -/
theorem modified_zscore_zero_mad_witness :
    madQ [(1 : ℚ), 1, 1, 2] = 0
    ∧ (modifiedZscoreFlagged [(1 : ℚ), 1, 1, 2] 2 = true
        ↔ (2 : ℚ) ≠ medianQ [(1 : ℚ), 1, 1, 2]) :=
  ⟨by norm_num [madQ, medianQ, sortQ, List.insertionSort, List.orderedInsert, List.getD],
   modified_zscore_zero_mad [1, 1, 1, 2] 2
     (by norm_num [madQ, medianQ, sortQ, List.insertionSort, List.orderedInsert, List.getD])⟩

/-- C8.  The imputation method selection of `_select_imputation_method`
follows the spec's policy exactly; in particular a numeric column with 3%
missing gets `"mean"`, and mean imputation fills every null cell with the
column's non-null mean while leaving observed values unchanged. -/
theorem select_imputation_matches_policy (pct : ℚ) (isNum : Bool)
    (c : Column) (i : ℕ) :
    select_imputation_method pct isNum = specImputationPolicy pct isNum
    ∧ (isNum = true → pct = 3 → select_imputation_method pct isNum = "mean")
    ∧ (c.get? i = some none → (meanImpute c).get? i = some (some (colMean c)))
    ∧ (∀ y : ℚ, c.get? i = some (some y) → (meanImpute c).get? i = some (some y)) := by
  refine ⟨rfl, ?_, ?_, ?_⟩
  · rintro rfl rfl
    norm_num [select_imputation_method]
  · intro h
    unfold meanImpute
    rw [List.get?_eq_getElem?, List.getElem?_map, ← List.get?_eq_getElem?, h]
    rfl
  · intro y h
    unfold meanImpute
    rw [List.get?_eq_getElem?, List.getElem?_map, ← List.get?_eq_getElem?, h]
    rfl

/-- C9.  For a table of `C` columns each of `R` cells with `M` null cells in
total (`R, C > 0`), the analyzer's overall missing percentage is exactly
`100·M/(R·C)`. -/
theorem missing_percentage_exact (t : Table) (R C M : ℕ)
    (hR : 0 < R) (hC : 0 < C) (hcols : t.length = C)
    (hlen : ∀ c ∈ t, c.2.length = R) (hM : totalMissing t = M) :
    missing_percentage t = 100 * (M : ℚ) / ((R : ℚ) * (C : ℚ)) := by
  unfold missing_percentage tableSize nRows
  cases t with
  | nil =>
    exfalso
    rw [← hcols] at hC
    simp at hC
  | cons c₀ t' =>
    have hR0 : c₀.2.length = R := hlen c₀ (List.mem_cons_self _ _)
    rw [hM]
    simp only [List.head?_cons, Option.map_some', Option.getD_some, hR0, hcols]
    have hRQ : ((R : ℕ) : ℚ) ≠ 0 := Nat.cast_ne_zero.2 hR.ne'
    have hCQ : ((C : ℕ) : ℚ) ≠ 0 := Nat.cast_ne_zero.2 hC.ne'
    push_cast
    field_simp
    ring

/-- Witness for C9: one column, two rows, one null cell → 50%. -/
theorem missing_percentage_exact_witness :
    missing_percentage [("a", [some 1, none])]
      = 100 * ((1 : ℕ) : ℚ) / (((2 : ℕ) : ℚ) * ((1 : ℕ) : ℚ)) :=
  missing_percentage_exact [("a", [some 1, none])] 2 1 1
    (by norm_num) (by norm_num) (by decide) (by decide) (by decide)

/-- C5.  The combined outlier set of `_combine_outlier_results` is exactly
the union over every statistical method of every column and every ML method
that produced indices; consequently it contains every individual method's
flagged set, and `total_outliers` is its cardinality. -/
theorem combine_outlier_results_is_union (stat : List StatColResult)
    (ml : List (Option (List ℕ))) :
    (∀ n, n ∈ combine_outlier_results stat ml ↔
        (∃ r ∈ stat, n ∈ statIndices r) ∨ (∃ o ∈ ml, n ∈ mlIndices o))
    ∧ (∀ r ∈ stat, r.iqr.toFinset ⊆ combine_outlier_results stat ml
        ∧ r.zscore.toFinset ⊆ combine_outlier_results stat ml
        ∧ r.modifiedZscore.toFinset ⊆ combine_outlier_results stat ml)
    ∧ (∀ o ∈ ml, mlIndices o ⊆ combine_outlier_results stat ml)
    ∧ total_outliers stat ml = (combine_outlier_results stat ml).card := by
  have hmem : ∀ n, n ∈ combine_outlier_results stat ml ↔
      (∃ r ∈ stat, n ∈ statIndices r) ∨ (∃ o ∈ ml, n ∈ mlIndices o) := by
    intro n
    unfold combine_outlier_results
    rw [mem_foldl_union, mem_foldl_union]
    simp
  refine ⟨hmem, ?_, ?_, rfl⟩
  · intro r hr
    have hsub : statIndices r ⊆ combine_outlier_results stat ml :=
      fun n hn => (hmem n).2 (Or.inl ⟨r, hr, hn⟩)
    exact ⟨fun n hn => hsub (Finset.mem_union_left _ (Finset.mem_union_left _ hn)),
      fun n hn => hsub (Finset.mem_union_left _ (Finset.mem_union_right _ hn)),
      fun n hn => hsub (Finset.mem_union_right _ hn)⟩
  · intro o ho n hn
    exact (hmem n).2 (Or.inr ⟨o, ho, hn⟩)

/-- Witness for C5 at concrete detector outputs. -/
theorem combine_outlier_results_is_union_witness :
    ((3 : ℕ) ∈ combine_outlier_results [⟨[1, 3], [2], [1]⟩] [some [7], none]
        ↔ (∃ r ∈ [(⟨[1, 3], [2], [1]⟩ : StatColResult)], 3 ∈ statIndices r)
          ∨ (∃ o ∈ [some [7], none], 3 ∈ mlIndices o))
    ∧ total_outliers [⟨[1, 3], [2], [1]⟩] [some [7], none]
        = (combine_outlier_results [⟨[1, 3], [2], [1]⟩] [some [7], none]).card :=
  ⟨(combine_outlier_results_is_union [⟨[1, 3], [2], [1]⟩] [some [7], none]).1 3,
   (combine_outlier_results_is_union [⟨[1, 3], [2], [1]⟩] [some [7], none]).2.2.2⟩

/-- C10.  `clean_dataset` copies the input frame into a fresh object and
every cleaning step mutates only the copy, so after the call the caller's
input slot holds exactly the value it held before, whatever the six stage
bodies do. -/
theorem clean_dataset_preserves_input (steps : List (MTable → MTable))
    (heap : Heap) (dfId : ℕ) (h : dfId < heap.length) :
    ((clean_dataset steps heap dfId).1).getD dfId ⟨0, []⟩
      = heap.getD dfId ⟨0, []⟩ := by
  unfold clean_dataset
  have hne : dfId ≠ heap.length := Nat.ne_of_lt h
  have hfold : ∀ (ss : List (MTable → MTable)) (h₀ : Heap),
      (ss.foldl (fun hp step =>
          hp.set heap.length (step (hp.getD heap.length ⟨0, []⟩))) h₀).getD dfId ⟨0, []⟩
        = h₀.getD dfId ⟨0, []⟩ := by
    intro ss
    induction ss with
    | nil => intro h₀; rfl
    | cons s ss ih =>
      intro h₀
      simp only [List.foldl_cons]
      rw [ih]
      exact getD_set_ne _ _ _ _ _ (fun he => hne he.symm)
  simp only
  rw [hfold]
  exact getD_append_left _ _ _ _ h

/-- Witness for C10: a destructive stage body, a one-frame heap. -/
theorem clean_dataset_preserves_input_witness :
    ((clean_dataset [fun _ => ⟨0, []⟩] [⟨1, [("a", [some 1])]⟩] 0).1).getD 0 ⟨0, []⟩
      = ([⟨1, [("a", [some 1])]⟩] : Heap).getD 0 ⟨0, []⟩ :=
  clean_dataset_preserves_input [fun _ => ⟨0, []⟩] [⟨1, [("a", [some 1])]⟩] 0
    (by norm_num)

/-- C3 (code bug).  On a five-row table whose only column `"a"` is 60%
null, the planner selects `drop_column` and `_apply_imputation` drops the
column in place — but `_handle_missing_data`'s unconditional
`df[col] = <returned empty series>` assignment re-adds it, aligned to the
frame's index as an all-null column.  After the stage the column is present
and entirely null, not absent; this holds whatever the (unreached) KNN
oracle is. -/
theorem drop_column_is_readded (knnFn : Table → String → Column) :
    handle_missing_data knnFn ⟨5, [("a", [some 1, none, none, none, some 2])]⟩
      = ⟨5, [("a", List.replicate 5 none)]⟩
    ∧ select_imputation_method (((3 : ℚ) / 5) * 100) true = "drop_column" := by
  constructor
  · norm_num [handle_missing_data, apply_imputation, dropColumn, setColumn, getColumn,
      nullCount, select_imputation_method, List.find?, List.filter, List.foldl,
      List.map, List.any, List.replicate]
  · norm_num [select_imputation_method]

/-- C4 (counterexample).  A series of five non-null values of which exactly
four — 80%, not more — convert cleanly to a number (and none parses as a
date, all distinct) is classified `"object"`, not `"numeric"`: the source
compares the numeric fraction strictly against 0.8, so "at least 80%"
fails at the boundary. -/
theorem suggest_dtype_at_80pct :
    numericFrac c4cells = 4 / 5
    ∧ (∀ c ∈ c4cells, c.isNull = false)
    ∧ suggest_dtype c4cells = "object" := by
  have hnf : numericFrac c4cells = 4 / 5 := by
    norm_num [numericFrac, c4cells, List.filter]
  have hlen : (((c4cells.filter (fun c => !c.isNull)).map (fun c => c.key)).dedup).length
      = 5 := by decide
  have hur : uniqueRatio c4cells = 1 := by
    unfold uniqueRatio
    rw [hlen]
    norm_num [c4cells]
  refine ⟨hnf, by decide, ?_⟩
  unfold suggest_dtype
  rw [hnf, hur]
  rw [if_neg (by norm_num), if_neg (by decide), if_neg (by norm_num)]

/-- C4 (amended).  The decision order of `_suggest_dtype`: `"numeric"` iff
strictly more than 80% of all values (nulls included in the denominator)
convert cleanly to a number; otherwise `"datetime"` iff every value parses
as a date/time; otherwise `"categorical"` iff the distinct-value ratio is
below 0.5; otherwise `"object"`. -/
theorem suggest_dtype_decision_order (s : List Cell) :
    (suggest_dtype s = "numeric" ↔ 4 / 5 < numericFrac s)
    ∧ (¬ 4 / 5 < numericFrac s →
        (suggest_dtype s = "datetime" ↔ s.all (fun c => c.parsesDatetime) = true))
    ∧ (¬ 4 / 5 < numericFrac s → ¬ s.all (fun c => c.parsesDatetime) = true →
        (suggest_dtype s = "categorical" ↔ uniqueRatio s < 1 / 2))
    ∧ (¬ 4 / 5 < numericFrac s → ¬ s.all (fun c => c.parsesDatetime) = true →
        ¬ uniqueRatio s < 1 / 2 → suggest_dtype s = "object") := by
  unfold suggest_dtype
  split_ifs with h1 h2 h3 <;> refine ⟨?_, ?_, ?_, ?_⟩ <;> simp_all

/-- C6 (counterexample).  For the column `[-100, 0, 0, 0]` the first
capping pass clips −100 up to the lower fence −62.5, but the IQR bounds
recomputed on the capped column have lower fence −625/16 ≈ −39.06, which
excludes −62.5: a second capping pass changes the column again, so capping
does not converge after one clip. -/
theorem capping_second_pass_changes :
    capColumn (capColumn [some (-100), some 0, some 0, some 0])
      ≠ capColumn [some (-100), some 0, some 0, some 0] := by
  have hq1 : quantileQ [(-100 : ℚ), 0, 0, 0] (1 / 4) = -25 := by
    rw [quantileQ_eval _ [-100, 0, 0, 0] _ 0 (3 / 4) (by decide) (by decide)
      (by norm_num [Int.floor_eq_iff]) (by norm_num)]
    norm_num [List.getD]
  have hq3 : quantileQ [(-100 : ℚ), 0, 0, 0] (3 / 4) = 0 := by
    rw [quantileQ_eval _ [-100, 0, 0, 0] _ 2 (1 / 4) (by decide) (by decide)
      (by norm_num [Int.floor_eq_iff]) (by norm_num)]
    norm_num [List.getD]
  have hcap1 : capColumn [some (-100), some 0, some 0, some 0]
      = [some (-125 / 2), some 0, some 0, some 0] := by
    simp only [capColumn, iqrLower, iqrUpper, List.filterMap_cons,
      List.filterMap_nil, id_eq, hq1, hq3]
    norm_num [min_def, max_def]
  have hq1' : quantileQ [(-125 / 2 : ℚ), 0, 0, 0] (1 / 4) = -125 / 8 := by
    rw [quantileQ_eval _ [-125 / 2, 0, 0, 0] _ 0 (3 / 4)
      (by norm_num [sortQ, List.insertionSort, List.orderedInsert]) (by decide)
      (by norm_num [Int.floor_eq_iff]) (by norm_num)]
    norm_num [List.getD]
  have hq3' : quantileQ [(-125 / 2 : ℚ), 0, 0, 0] (3 / 4) = 0 := by
    rw [quantileQ_eval _ [-125 / 2, 0, 0, 0] _ 2 (1 / 4)
      (by norm_num [sortQ, List.insertionSort, List.orderedInsert]) (by decide)
      (by norm_num [Int.floor_eq_iff]) (by norm_num)]
    norm_num [List.getD]
  have hcap2 : capColumn [some (-125 / 2), some 0, some 0, some 0]
      = [some (-625 / 16), some 0, some 0, some 0] := by
    simp only [capColumn, iqrLower, iqrUpper, List.filterMap_cons,
      List.filterMap_nil, id_eq, hq1', hq3']
    norm_num [min_def, max_def]
  rw [hcap1, hcap2]
  simp only [ne_eq, List.cons.injEq, Option.some.injEq]
  norm_num

/-- The sorted copy produced by `sortQ` is sorted. -/
theorem sortQ_sorted (xs : List ℚ) : (sortQ xs).Sorted (· ≤ ·) :=
  List.sorted_insertionSort _ xs

/-- Reading a sorted list at increasing in-range positions is monotone. -/
theorem getD_mono_sorted (s : List ℚ) (hsrt : s.Sorted (· ≤ ·)) {i j : ℕ}
    (hij : i ≤ j) (hj : j < s.length) : s.getD i 0 ≤ s.getD j 0 := by
  have hi : i < s.length := lt_of_le_of_lt hij hj
  rw [List.getD_eq_getElem s 0 hi, List.getD_eq_getElem s 0 hj]
  have := hsrt.rel_get_of_le (a := ⟨i, hi⟩) (b := ⟨j, hj⟩) hij
  simpa using this

/-- In a sorted list the interpolation partner `s.getD (k+1)` (with the
out-of-range default `s.getD k 0`) is at least `s.getD k 0`. -/
theorem getD_le_next (s : List ℚ) (hsrt : s.Sorted (· ≤ ·)) (k : ℕ) :
    s.getD k 0 ≤ s.getD (k + 1) (s.getD k 0) := by
  by_cases hk1 : k + 1 < s.length
  · rw [List.getD_eq_getElem s _ hk1, ← List.getD_eq_getElem s 0 hk1]
    exact getD_mono_sorted s hsrt (Nat.le_succ k) hk1
  · rw [List.getD_eq_default s _ (Nat.le_of_not_lt hk1)]

/-- Linear interpolation between consecutive entries of a sorted list, at a
nonnegative coordinate: monotone in the coordinate.  `a` and `b` play the
role of `q·(n−1)` for two quantile levels. -/
theorem interp_mono (s : List ℚ) (hsrt : s.Sorted (· ≤ ·)) (hne : s.length ≠ 0)
    (a b : ℚ) (ha0 : 0 ≤ a) (hab : a ≤ b) (hb1 : b ≤ (s.length : ℚ) - 1) :
    s.getD (⌊a⌋).toNat 0 + (a - ((⌊a⌋ : ℤ) : ℚ))
        * (s.getD ((⌊a⌋).toNat + 1) (s.getD (⌊a⌋).toNat 0) - s.getD (⌊a⌋).toNat 0)
      ≤ s.getD (⌊b⌋).toNat 0 + (b - ((⌊b⌋ : ℤ) : ℚ))
        * (s.getD ((⌊b⌋).toNat + 1) (s.getD (⌊b⌋).toNat 0) - s.getD (⌊b⌋).toNat 0) := by
  have hb0 : 0 ≤ b := le_trans ha0 hab
  have hfa : (0 : ℤ) ≤ ⌊a⌋ := Int.floor_nonneg.2 ha0
  have hfb : (0 : ℤ) ≤ ⌊b⌋ := Int.floor_nonneg.2 hb0
  have hkaZ : (((⌊a⌋).toNat : ℤ)) = ⌊a⌋ := Int.toNat_of_nonneg hfa
  have hkbZ : (((⌊b⌋).toNat : ℤ)) = ⌊b⌋ := Int.toNat_of_nonneg hfb
  have hkab : (⌊a⌋).toNat ≤ (⌊b⌋).toNat := Int.toNat_le_toNat (Int.floor_le_floor hab)
  have hkb_lt : (⌊b⌋).toNat < s.length := by
    have hcast : ((s.length : ℚ) - 1) = (((s.length : ℤ) - 1 : ℤ) : ℚ) := by push_cast; ring
    have hfloor : ⌊b⌋ ≤ (s.length : ℤ) - 1 := by
      have := Int.floor_le_floor hb1
      rwa [hcast, Int.floor_intCast] at this
    have hn : 1 ≤ s.length := Nat.one_le_iff_ne_zero.2 hne
    omega
  have hfa0 : 0 ≤ a - ((⌊a⌋ : ℤ) : ℚ) := sub_nonneg.2 (Int.floor_le a)
  have hfa1 : a - ((⌊a⌋ : ℤ) : ℚ) ≤ 1 := by linarith [Int.lt_floor_add_one a]
  have hfb0 : 0 ≤ b - ((⌊b⌋ : ℤ) : ℚ) := sub_nonneg.2 (Int.floor_le b)
  have hda := getD_le_next s hsrt (⌊a⌋).toNat
  have hdb := getD_le_next s hsrt (⌊b⌋).toNat
  by_cases hk : (⌊a⌋).toNat = (⌊b⌋).toNat
  · have hfl : ⌊a⌋ = ⌊b⌋ := by rw [← hkaZ, ← hkbZ, hk]
    rw [hk, hfl]
    nlinarith [sub_nonneg.2 hdb, sub_nonneg.2 (le_trans hab (le_refl b))]
  · have hlt : (⌊a⌋).toNat < (⌊b⌋).toNat := lt_of_le_of_ne hkab hk
    have hka1 : (⌊a⌋).toNat + 1 < s.length := lt_of_le_of_lt hlt hkb_lt
    have hstep1 : s.getD (⌊a⌋).toNat 0 + (a - ((⌊a⌋ : ℤ) : ℚ))
        * (s.getD ((⌊a⌋).toNat + 1) (s.getD (⌊a⌋).toNat 0) - s.getD (⌊a⌋).toNat 0)
        ≤ s.getD ((⌊a⌋).toNat + 1) (s.getD (⌊a⌋).toNat 0) := by
      nlinarith [mul_nonneg (sub_nonneg.2 hfa1) (sub_nonneg.2 hda)]
    have hstep2 : s.getD ((⌊a⌋).toNat + 1) (s.getD (⌊a⌋).toNat 0)
        ≤ s.getD (⌊b⌋).toNat 0 := by
      rw [List.getD_eq_getElem s _ hka1, ← List.getD_eq_getElem s 0 hka1]
      exact getD_mono_sorted s hsrt hlt hkb_lt
    have hstep3 : s.getD (⌊b⌋).toNat 0 ≤ s.getD (⌊b⌋).toNat 0 + (b - ((⌊b⌋ : ℤ) : ℚ))
        * (s.getD ((⌊b⌋).toNat + 1) (s.getD (⌊b⌋).toNat 0) - s.getD (⌊b⌋).toNat 0) := by
      nlinarith [mul_nonneg hfb0 (sub_nonneg.2 hdb)]
    linarith

/-- `Series.quantile` is monotone in the quantile level. -/
theorem quantileQ_mono (xs : List ℚ) (q q' : ℚ) (h0 : 0 ≤ q) (hqq : q ≤ q')
    (h1 : q' ≤ 1) : quantileQ xs q ≤ quantileQ xs q' := by
  unfold quantileQ
  by_cases hne : (sortQ xs).length = 0
  · rw [if_pos hne, if_pos hne]
  · rw [if_neg hne, if_neg hne]
    simp only []
    have hn : 1 ≤ (sortQ xs).length := Nat.one_le_iff_ne_zero.2 hne
    have hn1Q : (0 : ℚ) ≤ ((sortQ xs).length : ℚ) - 1 := by
      have : (1 : ℚ) ≤ ((sortQ xs).length : ℚ) := by exact_mod_cast hn
      linarith
    exact interp_mono (sortQ xs) (sortQ_sorted xs) hne _ _
      (mul_nonneg h0 hn1Q)
      (mul_le_mul_of_nonneg_right hqq hn1Q)
      (by nlinarith)

/-- The IQR fences are ordered: `Q1 − 1.5·IQR ≤ Q3 + 1.5·IQR`. -/
theorem iqrLower_le_iqrUpper (xs : List ℚ) : iqrLower xs ≤ iqrUpper xs := by
  have h := quantileQ_mono xs (1 / 4) (3 / 4) (by norm_num) (by norm_num) (by norm_num)
  unfold iqrLower iqrUpper
  linarith

/-- C6 (amended).  After the capping pass of `_handle_outliers`, every
(non-null) value of the column lies within the bounds computed *before*
capping, and every value the pass changed sits exactly at one of those
bounds.  (The bounds recomputed on the capped column need not contain all
values — see the counterexample — so only the pre-capping bounds are
guaranteed.) -/
theorem capColumn_within_precap_bounds (c : Column) :
    (∀ v : ℚ, some v ∈ capColumn c →
        iqrLower (c.filterMap id) ≤ v ∧ v ≤ iqrUpper (c.filterMap id))
    ∧ (∀ i : ℕ, ∀ v w : ℚ, c.get? i = some (some v) →
        (capColumn c).get? i = some (some w) →
        w = v ∨ w = iqrLower (c.filterMap id) ∨ w = iqrUpper (c.filterMap id)) := by
  have hlohi := iqrLower_le_iqrUpper (c.filterMap id)
  constructor
  · intro v hv
    unfold capColumn at hv
    by_cases hemp : (c.filterMap id).length = 0
    · rw [if_pos hemp] at hv
      exfalso
      have hmem : v ∈ c.filterMap id := List.mem_filterMap.2 ⟨some v, hv, rfl⟩
      rw [List.length_eq_zero.1 hemp] at hmem
      simp at hmem
    · rw [if_neg hemp] at hv
      simp only [List.mem_map] at hv
      obtain ⟨w?, _, hmap⟩ := hv
      cases w? with
      | none => simp at hmap
      | some w =>
        simp only [Option.map_some', Option.some.injEq] at hmap
        subst hmap
        split_ifs with hout
        · exact ⟨le_min hlohi (le_max_left _ _), min_le_left _ _⟩
        · push_neg at hout
          exact ⟨hout.1, hout.2⟩
  · intro i v w hv hw
    unfold capColumn at hw
    by_cases hemp : (c.filterMap id).length = 0
    · rw [if_pos hemp, hv] at hw
      simp only [Option.some.injEq] at hw
      exact Or.inl hw.symm
    · rw [if_neg hemp] at hw
      rw [List.get?_eq_getElem?, List.getElem?_map, ← List.get?_eq_getElem?, hv] at hw
      simp only [Option.map_some', Option.some.injEq] at hw
      split_ifs at hw with hout
      · rcases lt_or_le v (iqrLower (c.filterMap id)) with hlow | hge
        · right; left
          rw [← hw]
          rw [max_eq_left (le_of_lt hlow), min_eq_right hlohi]
        · right; right
          have hhigh : iqrUpper (c.filterMap id) < v := by
            rcases hout with h | h
            · exact absurd h (not_lt.2 hge)
            · exact h
          rw [← hw]
          rw [max_eq_right hge, min_eq_left (le_of_lt hhigh)]
      · exact Or.inl hw.symm

/-- Witness for C6's amended theorem at the counterexample column. -/
theorem capColumn_within_precap_bounds_witness :
    (∀ v : ℚ, some v ∈ capColumn [some (-100), some 0, some 0, some 0] →
        iqrLower ([some (-100), some 0, some 0, some 0].filterMap id) ≤ v
        ∧ v ≤ iqrUpper ([some (-100), some 0, some 0, some 0].filterMap id))
    ∧ (∀ i : ℕ, ∀ v w : ℚ,
        [some (-100), some 0, some 0, some 0].get? i = some (some v) →
        (capColumn [some (-100), some 0, some 0, some 0]).get? i = some (some w) →
        w = v ∨ w = iqrLower ([some (-100), some 0, some 0, some 0].filterMap id)
          ∨ w = iqrUpper ([some (-100), some 0, some 0, some 0].filterMap id)) :=
  capColumn_within_precap_bounds [some (-100), some 0, some 0, some 0]

end DataCleanAI
